import Mathlib

/-!
Verification of the glob-matching core of the gitparator repository.

The embedding models strings as `List Char` (Go strings / rune slices) and
translates, function by function:

* `src/wildpath/wildpath.go` — the Pattern Matcher (`Wildpath` namespace):
  `Match`, `expandBraces`, `matchSinglePattern`, `normalize`, `matchParts`,
  `matchSinglePart`, `findClosingBracket`, `matchCharacterRange`.
* `src/gitignore/gitignore.go` — the Ignore Stack (`Gitignore` namespace):
  `Stack`, `New`, `PushPatterns`, `PopPatterns`, `ShouldIgnore`.
* `src/main.go` — the walker's per-entry exclusion decision
  (`Walker` namespace): `shouldExclude`, `getAllFilesFromDir`'s entry logic.

Go's `strings.Split`, `strings.Index`, `strings.HasPrefix` and friends are
modelled by small recursive functions on `List Char` defined below.
-/

namespace Wildpath

/-- The open-brace character, written by code so that no brace appears in a
character literal. -/
def lbrace : Char := '\x7b'

/-- The close-brace character. -/
def rbrace : Char := '\x7d'

/-- Go `strings.Split(s, sep)` for a one-character separator: always returns a
non-empty list of components; `Split("") = [""]`. -/
def splitOnChar (sep : Char) : List Char → List (List Char)
  | [] => [[]]
  | c :: cs =>
    match splitOnChar sep cs with
    | [] => [[c]]
    | h :: t => if c = sep then [] :: h :: t else (c :: h) :: t

/-- Go `strings.Index(s, needle)` for a one-character needle: index of the
first occurrence, or none. -/
def indexOfChar (c : Char) : List Char → Option Nat
  | [] => none
  | x :: xs => if x = c then some 0 else (indexOfChar c xs).map (· + 1)

theorem splitOnChar_ne_nil (sep : Char) (s : List Char) : splitOnChar sep s ≠ [] := by
  cases s with
  | nil => simp [splitOnChar]
  | cons c cs =>
    simp only [splitOnChar]
    cases splitOnChar sep cs with
    | nil => simp
    | cons h t =>
      by_cases hc : c = sep <;> simp [hc]

theorem indexOfChar_ne_nil {c : Char} {s : List Char} {i : Nat}
    (h : indexOfChar c s = some i) : s ≠ [] := by
  intro hnil
  subst hnil
  simp [indexOfChar] at h

/-- `expandBraces` expands patterns like `*.\x7bjs,ts\x7d` into the list of
patterns obtained by substituting each comma-separated alternative, with the
suffix recursively expanded (wildpath.go lines 43-78).  Unclosed braces,
empty brace content and comma-free content leave the pattern untouched. -/
def expandBraces (pattern : List Char) : List (List Char) :=
  match hs : indexOfChar lbrace pattern with
  | none => [pattern]
  | some start =>
    match indexOfChar rbrace (pattern.drop start) with
    | none => [pattern]
    | some e =>
      let endIdx := e + start
      let content := (pattern.drop (start + 1)).take (endIdx - (start + 1))
      if content = [] ∨ ¬ content.contains ',' then [pattern]
      else
        let pre := pattern.take start
        let suffix := pattern.drop (endIdx + 1)
        let alternatives := splitOnChar ',' content
        let suffixExpanded := expandBraces suffix
        alternatives.flatMap (fun alt => suffixExpanded.map (fun sp => pre ++ alt ++ sp))
termination_by pattern.length
decreasing_by
  have hne : pattern ≠ [] := indexOfChar_ne_nil hs
  have hlen : 0 < pattern.length := List.length_pos.mpr hne
  simp only [List.length_drop]
  omega

/-- `findClosingBracket` (wildpath.go lines 208-215): scan from index 1 for a
closing bracket character; `none` models the Go return value `-1`. -/
def findClose : List Char → Nat → Option Nat
  | [], _ => none
  | c :: cs, i => if c = ']' then some i else findClose cs (i + 1)

/-- The Go function starts its scan at index 1 (skipping the opening
bracket). -/
def findClosingBracket (pattern : List Char) : Option Nat :=
  match pattern with
  | [] => none
  | _ :: rest => findClose rest 1

/-- Inner scan of `matchCharacterRange` (wildpath.go lines 229-245): the
three-element view `a :: '-' :: b :: rest` mirrors the Go guard
`i+2 < len(rangePattern) && rangePattern[i+1] == '-'`. -/
def rangeLoop (char : Char) : List Char → Bool
  | a :: '-' :: b :: rest =>
    if a ≤ char ∧ char ≤ b then true else rangeLoop char rest
  | a :: rest => if a = char then true else rangeLoop char rest
  | [] => false

/-- `matchCharacterRange` (wildpath.go lines 217-248). -/
def matchCharacterRange (rangePattern : List Char) (char : Char) : Bool :=
  match rangePattern with
  | [] => false
  | _ =>
    let stripped : Bool × List Char :=
      match rangePattern with
      | '!' :: r => (true, r)
      | '^' :: r => (true, r)
      | r => (false, r)
    rangeLoop char stripped.2 != stripped.1

theorem measure_lt_right {L a a' b b' : Nat} (ha : a' ≤ a) (hb : b' < b) :
    a' * (L + 1) + b' < a * (L + 1) + b := by
  have h1 : a' * (L + 1) ≤ a * (L + 1) := Nat.mul_le_mul_right _ ha
  omega

theorem measure_lt_left {L a a' b b' : Nat} (ha : a' < a) (hb : b' ≤ L) :
    a' * (L + 1) + b' < a * (L + 1) + b := by
  have h1 : (a' + 1) * (L + 1) ≤ a * (L + 1) := Nat.mul_le_mul_right _ ha
  have h2 : (a' + 1) * (L + 1) = a' * (L + 1) + (L + 1) := Nat.succ_mul _ _
  omega

/-- The closing loop of `matchSinglePart` (wildpath.go lines 201-205): after
the main loop, skip trailing `*` characters and require the pattern to be
consumed; applied to `p.drop i`. -/
def allStars : List Char → Bool
  | [] => true
  | '*' :: rest => allStars rest
  | _ => false

/-- The main loop of `matchSinglePart` (wildpath.go lines 163-199).  `i` and
`j` index into the pattern and string rune slices; `star` records the
position of the most recent `*` (Go `starIdx`, `-1` modelled as `none`) and
`sm` the string position at which that star's span was last tried (Go
`starMatch`). -/
def mspLoop (p s : List Char) (i j : Nat) (star : Option Nat) (sm : Nat) : Bool :=
  if hj : j < s.length then
    if hi : i < p.length then
      if p.get ⟨i, hi⟩ = '*' then
        mspLoop p s (i + 1) j (some i) j
      else if p.get ⟨i, hi⟩ = '?' ∨ p.get ⟨i, hi⟩ = s.get ⟨j, hj⟩ then
        mspLoop p s (i + 1) (j + 1) star sm
      else if p.get ⟨i, hi⟩ = '[' then
        match findClosingBracket (p.drop i) with
        | none => false
        | some closeIdx =>
          if matchCharacterRange ((p.drop (i + 1)).take (closeIdx - 1)) (s.get ⟨j, hj⟩) then
            mspLoop p s (i + closeIdx + 1) (j + 1) star sm
          else
            match star with
            | none => false
            | some si => mspLoop p s (si + 1) (sm + 1) (some si) (sm + 1)
      else
        match star with
        | none => false
        | some si => mspLoop p s (si + 1) (sm + 1) (some si) (sm + 1)
    else
      match star with
      | none => false
      | some si => mspLoop p s (si + 1) (sm + 1) (some si) (sm + 1)
  else
    allStars (p.drop i)
termination_by (s.length - min sm j) * (p.length + 1) + (p.length - i)
decreasing_by
  all_goals
    first
      | exact measure_lt_right (by omega) (by omega)
      | exact measure_lt_left (by omega) (by omega)

/-- `matchSinglePart` (wildpath.go lines 155-206): the shortcut for the
pattern `*` or an exact string match, then the rune-level loop. -/
def matchSinglePart (pattern str : List Char) : Bool :=
  if pattern = ['*'] ∨ pattern = str then true
  else mspLoop pattern str 0 0 none 0

/-- The suffixes of a component list, from the full list down to `[]`; the
Go loop `for i := filenameIdx; i <= len(filename); i++` visits exactly the
suffixes `filename[i:]` in this order. -/
def tailsList : List (List Char) → List (List (List Char))
  | [] => [[]]
  | x :: xs => (x :: xs) :: tailsList xs

/-- The globstar component. -/
def globstar : List Char := ['*', '*']

/-- When the filename components are exhausted (wildpath.go lines 112-119):
skip over trailing `**` pattern components, then require all pattern
components to be consumed. -/
def allGlobstars : List (List Char) → Bool
  | [] => true
  | pc :: pr => if pc = globstar then allGlobstars pr else false

/-- `matchParts` (wildpath.go lines 109-153), with the index pair
`(patternIdx, filenameIdx)` of the Go code represented by the suffixes
`pattern[patternIdx:]` and `filename[filenameIdx:]` of the two component
lists. -/
def matchParts : List (List Char) → List (List Char) → Bool
  | [], f => f.isEmpty
  | pc :: pr, f =>
    if f.isEmpty then allGlobstars (pc :: pr)
    else if pc = globstar then
      if pr = [] then true
      else (tailsList f).any (fun g => matchParts pr g)
    else
      match f with
      | [] => false
      | fc :: fr => if matchSinglePart pc fc then matchParts pr fr else false
termination_by p _ => p.length
decreasing_by
  all_goals simp

/-- `normalize` (wildpath.go lines 94-107): split on `/`, drop the empty
components, and record whether the string began with a slash. -/
def normalize (s : List Char) : List (List Char) × Bool :=
  (((splitOnChar '/' s).filter (fun part => part ≠ [])), s.head? = some '/')

/-- `matchSinglePattern` (wildpath.go lines 80-92): root-anchor flags of the
pattern and the filename must agree, then the component lists are matched. -/
def matchSinglePattern (pattern filename : List Char) : Bool :=
  if (normalize pattern).2 ≠ (normalize filename).2 then false
  else matchParts (normalize pattern).1 (normalize filename).1

/-- `Match` (wildpath.go lines 28-40): brace expansion first when the pattern
contains an open brace (success when any expansion matches), otherwise a
direct single-pattern match. -/
def Match (pattern filename : List Char) : Bool :=
  if pattern.contains lbrace then
    (expandBraces pattern).any (fun p => matchSinglePattern p filename)
  else matchSinglePattern pattern filename

end Wildpath

namespace Gitignore

/-- `filepath.ToSlash` on a Unix-style embedding: replace every backslash by
a forward slash (gitignore.go lines 16, 26, 39). -/
def toSlash (s : List Char) : List Char :=
  s.map (fun c => if c = '\\' then '/' else c)

/-- The ignore stack (gitignore.go lines 10-13): an ordered list of pattern
groups (push order, the most recently pushed group last) and a base path. -/
structure Stack where
  patterns : List (List (List Char))
  basePath : List Char
  deriving Repr, DecidableEq

/-- `New` (gitignore.go lines 15-21). -/
def New (basePath : List Char) : Stack :=
  { patterns := [], basePath := toSlash basePath }

/-- `PushPatterns` (gitignore.go lines 23-29): normalize each pattern's
slashes and append the group. -/
def PushPatterns (s : Stack) (patterns : List (List Char)) : Stack :=
  { s with patterns := s.patterns ++ [patterns.map toSlash] }

/-- `PopPatterns` (gitignore.go lines 31-35): drop the last group; a no-op
when there are no groups. -/
def PopPatterns (s : Stack) : Stack :=
  if s.patterns.length > 0 then { s with patterns := s.patterns.dropLast } else s

/-- Go `strings.HasSuffix(pattern, "/")`. -/
def endsWithSlash (pattern : List Char) : Bool :=
  pattern.getLast? = some '/'

/-- Go `strings.TrimSuffix(pattern, "/")` in the branch where the suffix is
known to be present. -/
def trimSlash (pattern : List Char) : List Char :=
  pattern.dropLast

/-- The directory-only rule of `ShouldIgnore` (gitignore.go lines 79-91):
for a pattern ending in a slash with stem `dirPattern`, try
`Match("**/" ++ dirPattern ++ "/**/*", relPath)` and fall back to
`Match(dirPattern ++ "/**/*", relPath)`. -/
def dirRuleMatch (dirPattern relPath : List Char) : Bool :=
  Wildpath.Match (['*', '*', '/'] ++ dirPattern ++ ['/', '*', '*', '/', '*']) relPath ||
    Wildpath.Match (dirPattern ++ ['/', '*', '*', '/', '*']) relPath

/-- The slash-free rule of `ShouldIgnore` (gitignore.go lines 93-105): for a
pattern without a slash, try with the `**/` prefix first, falling back to
the bare pattern; a pattern containing a slash is matched as-is. -/
def plainRuleMatch (pattern relPath : List Char) : Bool :=
  if ¬ pattern.contains '/' then
    Wildpath.Match (['*', '*', '/'] ++ pattern) relPath || Wildpath.Match pattern relPath
  else Wildpath.Match pattern relPath

/-- The inner loop of `ShouldIgnore` over one pattern group (gitignore.go
lines 57-111), with the accumulators `foundMatch` and `levelResult`:
empty patterns are skipped, a leading `!` negates, a leading `/` is
stripped, and the last matching pattern of the group determines the
recorded decision. -/
def evalGroupLoop (relPath : List Char) : List (List Char) → Bool → Bool → Bool × Bool
  | [], foundMatch, levelResult => (foundMatch, levelResult)
  | pattern :: rest, foundMatch, levelResult =>
    if pattern = [] then evalGroupLoop relPath rest foundMatch levelResult
    else
      let isNegated := pattern.head? = some '!'
      let p1 := if isNegated then pattern.tail else pattern
      let p2 := if p1.head? = some '/' then p1.tail else p1
      if endsWithSlash p2 then
        if dirRuleMatch (trimSlash p2) relPath then
          evalGroupLoop relPath rest true (!isNegated)
        else evalGroupLoop relPath rest foundMatch levelResult
      else
        if plainRuleMatch p2 relPath then
          evalGroupLoop relPath rest true (!isNegated)
        else evalGroupLoop relPath rest foundMatch levelResult

/-- The outer loop of `ShouldIgnore` (gitignore.go lines 55-117), scanning
groups from the most recently pushed to the first pushed; the argument is
the reversed group list.  The first group in which any pattern matched
decides. -/
def scanGroups (relPath : List Char) : List (List (List Char)) → Bool
  | [] => false
  | g :: rest =>
    let r := evalGroupLoop relPath g false false
    if r.1 then r.2 else scanGroups relPath rest

/-- Go `strings.HasPrefix(relPath, "..")`. -/
def startsWithDotDot : List Char → Bool
  | '.' :: '.' :: _ => true
  | _ => false

/-- `ShouldIgnore` (gitignore.go lines 37-120).  The Go function receives an
absolute path and first computes its form relative to the stack's base
(`filepath.Rel`, an OS library call); the embedding takes that base-relative
form directly.  A relative form that begins with `..` is never ignored;
otherwise the groups are scanned from deepest to shallowest. -/
def ShouldIgnore (s : Stack) (relPath : List Char) : Bool :=
  if startsWithDotDot relPath then false
  else scanGroups relPath s.patterns.reverse

end Gitignore

namespace Walker

/-- Modelled from the spec: `shouldExclude` (main.go lines 568-576) delegates
each pattern test to the third-party `doublestar.PathMatch`, whose source is
not part of this repository; spec section 4.3 describes the flat exclude
check as "evaluated with the Pattern Matcher directly, no stack, no
negation", so the missing matcher is modelled as the repository's own
`Wildpath.Match`. -/
def pathMatch (pattern path : List Char) : Bool :=
  Wildpath.Match pattern path

/-- `shouldExclude` (main.go lines 568-576): true when any pattern of the
flat exclude list matches the path. -/
def shouldExclude (path : List Char) (patterns : List (List Char)) : Bool :=
  patterns.any (fun pattern => pathMatch pattern path)

/-- A directory entry seen by the walker is either a directory or a file. -/
inductive EntryKind where
  | dir
  | file
  deriving Repr, DecidableEq

/-- The per-entry exclusion decision of `getAllFilesFromDir` (main.go lines
394-427): a directory named `.git` and a file named `.gitignore` are skipped
outright; otherwise the entry is excluded when the flat exclude list matches
its tree-relative path or, with `respectGitignore` set, when the ignore
stack ignores it.  The Go code hands `ShouldIgnore` the absolute path, whose
base-relative form is the same `relativePath` (`filepath.Rel(dir, fullPath)`)
that the exclude check uses, so the embedding passes that form directly. -/
def excludedFromComparison (kind : EntryKind) (entryName relativePath : List Char)
    (excludePaths : List (List Char)) (stack : Gitignore.Stack)
    (respectGitignore : Bool) : Bool :=
  match kind with
  | .dir =>
    if entryName = ['.', 'g', 'i', 't'] then true
    else if shouldExclude relativePath excludePaths then true
    else if respectGitignore && Gitignore.ShouldIgnore stack relativePath then true
    else false
  | .file =>
    if entryName = ['.', 'g', 'i', 't', 'i', 'g', 'n', 'o', 'r', 'e'] then true
    else if shouldExclude relativePath excludePaths then true
    else if respectGitignore && Gitignore.ShouldIgnore stack relativePath then true
    else false

end Walker

namespace WildpathLit

/-- Modelled from the spec: "malformed brackets ... degrade to literal-string
interpretation of the offending fragment" (spec section 7).  This is the
rune-level loop of `matchSinglePart` with the bracket-expression branch
removed, so that an unterminated `[` behaves exactly like an ordinary
literal character; it exists only to be compared against the code's
`Wildpath.mspLoop`. -/
def mspLoopLit (p s : List Char) (i j : Nat) (star : Option Nat) (sm : Nat) : Bool :=
  if hj : j < s.length then
    if hi : i < p.length then
      if p.get ⟨i, hi⟩ = '*' then
        mspLoopLit p s (i + 1) j (some i) j
      else if p.get ⟨i, hi⟩ = '?' ∨ p.get ⟨i, hi⟩ = s.get ⟨j, hj⟩ then
        mspLoopLit p s (i + 1) (j + 1) star sm
      else
        match star with
        | none => false
        | some si => mspLoopLit p s (si + 1) (sm + 1) (some si) (sm + 1)
    else
      match star with
      | none => false
      | some si => mspLoopLit p s (si + 1) (sm + 1) (some si) (sm + 1)
  else
    Wildpath.allStars (p.drop i)
termination_by (s.length - min sm j) * (p.length + 1) + (p.length - i)
decreasing_by
  all_goals
    first
      | exact Wildpath.measure_lt_right (by omega) (by omega)
      | exact Wildpath.measure_lt_left (by omega) (by omega)

/-- Literal-interpretation variant of `matchSinglePart`. -/
def matchSinglePartLit (pattern str : List Char) : Bool :=
  if pattern = ['*'] ∨ pattern = str then true
  else mspLoopLit pattern str 0 0 none 0

/-- Literal-interpretation variant of `matchParts`. -/
def matchPartsLit : List (List Char) → List (List Char) → Bool
  | [], f => f.isEmpty
  | pc :: pr, f =>
    if f.isEmpty then Wildpath.allGlobstars (pc :: pr)
    else if pc = Wildpath.globstar then
      if pr = [] then true
      else (Wildpath.tailsList f).any (fun g => matchPartsLit pr g)
    else
      match f with
      | [] => false
      | fc :: fr => if matchSinglePartLit pc fc then matchPartsLit pr fr else false
termination_by p _ => p.length
decreasing_by
  all_goals simp

/-- Literal-interpretation variant of `matchSinglePattern`. -/
def matchSinglePatternLit (pattern filename : List Char) : Bool :=
  if (Wildpath.normalize pattern).2 ≠ (Wildpath.normalize filename).2 then false
  else matchPartsLit (Wildpath.normalize pattern).1 (Wildpath.normalize filename).1

/-- Literal-interpretation variant of `Match`: identical pipeline, with
malformed bracket expressions read as literal characters. -/
def MatchLit (pattern filename : List Char) : Bool :=
  if pattern.contains Wildpath.lbrace then
    (Wildpath.expandBraces pattern).any (fun p => matchSinglePatternLit p filename)
  else matchSinglePatternLit pattern filename

end WildpathLit

namespace Wildpath

theorem splitOnChar_append (sep : Char) (xs ys : List Char) :
    splitOnChar sep (xs ++ sep :: ys) = splitOnChar sep xs ++ splitOnChar sep ys := by
  induction xs with
  | nil =>
    simp only [List.nil_append, splitOnChar]
    cases hy : splitOnChar sep ys with
    | nil => exact absurd hy (splitOnChar_ne_nil sep ys)
    | cons h t => simp
  | cons c cs ih =>
    cases hc : splitOnChar sep cs with
    | nil => exact absurd hc (splitOnChar_ne_nil sep cs)
    | cons h t =>
      simp only [List.cons_append, splitOnChar, List.append_eq]
      rw [ih, hc]
      simp only [List.cons_append]
      by_cases hsep : c = sep <;> simp [hsep]

theorem indexOfChar_eq_none {c : Char} {s : List Char} :
    indexOfChar c s = none ↔ s.contains c = false := by
  induction s with
  | nil => simp [indexOfChar]
  | cons x xs ih =>
    by_cases hx : x = c
    · subst hx
      simp [indexOfChar, List.contains_cons]
    · simp [indexOfChar, hx, List.contains_cons, ih, Ne.symm hx]

theorem expandBraces_of_not_contains {pattern : List Char}
    (h : pattern.contains lbrace = false) : expandBraces pattern = [pattern] := by
  rw [expandBraces]
  rw [indexOfChar_eq_none.mpr h]

theorem matchParts_nil_right (p : List (List Char)) :
    matchParts p [] = allGlobstars p := by
  cases p with
  | nil => simp [matchParts, allGlobstars]
  | cons pc pr => simp [matchParts]

theorem mem_tailsList_length {g : List (List Char)} :
    ∀ {f : List (List Char)}, g ∈ tailsList f → g.length ≤ f.length := by
  intro f
  induction f with
  | nil =>
    intro h
    simp [tailsList] at h
    simp [h]
  | cons x xs ih =>
    intro h
    simp only [tailsList, List.mem_cons] at h
    rcases h with h | h
    · simp [h]
    · have := ih h
      simp only [List.length_cons]
      omega

/-- The number of pattern components that are not the globstar; every such
component must consume at least one filename component. -/
def nonGlobstarCount : List (List Char) → Nat
  | [] => 0
  | pc :: pr => (if pc = globstar then 0 else 1) + nonGlobstarCount pr

theorem nonGlobstarCount_append (a b : List (List Char)) :
    nonGlobstarCount (a ++ b) = nonGlobstarCount a + nonGlobstarCount b := by
  induction a with
  | nil => simp [nonGlobstarCount]
  | cons pc pr ih => simp [nonGlobstarCount, ih]; omega

theorem nonGlobstarCount_eq_length {l : List (List Char)}
    (h : ∀ x ∈ l, x ≠ globstar) : nonGlobstarCount l = l.length := by
  induction l with
  | nil => simp [nonGlobstarCount]
  | cons pc pr ih =>
    have h1 : pc ≠ globstar := h pc (List.mem_cons_self pc pr)
    have h2 : ∀ x ∈ pr, x ≠ globstar := fun x hx => h x (List.mem_cons_of_mem pc hx)
    simp [nonGlobstarCount, h1, ih h2]
    omega

theorem allGlobstars_count {l : List (List Char)} (h : allGlobstars l = true) :
    nonGlobstarCount l = 0 := by
  induction l with
  | nil => simp [nonGlobstarCount]
  | cons pc pr ih =>
    rw [allGlobstars] at h
    by_cases hpc : pc = globstar
    · rw [if_pos hpc] at h
      simp [nonGlobstarCount, hpc, ih h]
    · simp [hpc] at h

theorem matchParts_length_le :
    ∀ (p f : List (List Char)), matchParts p f = true →
      nonGlobstarCount p ≤ f.length := by
  intro p
  induction p with
  | nil =>
    intro f h
    simp [nonGlobstarCount]
  | cons pc pr ih =>
    intro f h
    rw [matchParts.eq_def] at h
    simp only [] at h
    by_cases hf : f.isEmpty
    · rw [if_pos hf] at h
      simp [allGlobstars_count h]
    · rw [if_neg hf] at h
      by_cases hpc : pc = globstar
      · rw [if_pos hpc] at h
        by_cases hpr : pr = []
        · subst hpr
          simp [nonGlobstarCount, hpc]
        · rw [if_neg hpr] at h
          obtain ⟨g, hg, hm⟩ := List.any_eq_true.mp h
          have h1 := ih g hm
          have h2 := mem_tailsList_length hg
          simp [nonGlobstarCount, hpc]
          omega
      · rw [if_neg hpc] at h
        cases f with
        | nil => simp at hf
        | cons fc fr =>
          simp only [] at h
          by_cases hm : matchSinglePart pc fc = true
          · rw [if_pos hm] at h
            have h1 := ih fr h
            simp [nonGlobstarCount, hpc]
            omega
          · rw [if_neg hm] at h
            exact absurd h (by simp)

theorem contains_append (c : Char) (a b : List Char) :
    (a ++ b).contains c = (a.contains c || b.contains c) := by
  induction a with
  | nil => simp
  | cons x xs ih =>
    by_cases hx : x = c <;> simp [List.contains_cons, hx, ih, Bool.or_assoc]

theorem mem_of_head?_eq {c : Char} {l : List Char} (h : l.head? = some c) : c ∈ l := by
  cases l with
  | nil => simp at h
  | cons x xs =>
    simp only [List.head?_cons, Option.some.injEq] at h
    simp [h]

theorem mem_of_getLast?_eq {c : Char} : ∀ {l : List Char}, l.getLast? = some c → c ∈ l := by
  intro l
  induction l with
  | nil => intro h; simp at h
  | cons x xs ih =>
    intro h
    cases xs with
    | nil =>
      simp only [List.getLast?_singleton, Option.some.injEq] at h
      simp [h]
    | cons y ys =>
      rw [List.getLast?_cons_cons] at h
      exact List.mem_cons_of_mem _ (ih h)

theorem contains_false_not_mem {c : Char} : ∀ {l : List Char}, l.contains c = false → c ∉ l := by
  intro l
  induction l with
  | nil => intro _ hm; simp at hm
  | cons x xs ih =>
    intro h hm
    simp only [List.contains_cons, Bool.or_eq_false_iff] at h
    obtain ⟨h1, h2⟩ := h
    rcases List.mem_cons.mp hm with h3 | h3
    · subst h3; simp at h1
    · exact ih h2 h3

end Wildpath

namespace Gitignore

theorem toSlash_eq_self : ∀ {s : List Char}, s.contains '\\' = false → toSlash s = s := by
  intro s
  induction s with
  | nil => intro _; rfl
  | cons x xs ih =>
    intro h
    simp only [List.contains_cons, Bool.or_eq_false_iff] at h
    obtain ⟨hx, hxs⟩ := h
    have hx' : x ≠ '\\' := by
      intro hh
      subst hh
      simp at hx
    simp only [toSlash, List.map_cons, if_neg hx']
    have := ih hxs
    simp only [toSlash] at this
    rw [this]

theorem scanGroups_append_of_no_match {rel : List Char} :
    ∀ {L rest : List (List (List Char))},
      (∀ g ∈ L, (evalGroupLoop rel g false false).1 = false) →
      scanGroups rel (L ++ rest) = scanGroups rel rest := by
  intro L
  induction L with
  | nil => intro rest _; rfl
  | cons g L ih =>
    intro rest h
    have hg := h g (List.mem_cons_self g L)
    have hL : ∀ x ∈ L, (evalGroupLoop rel x false false).1 = false :=
      fun x hx => h x (List.mem_cons_of_mem _ hx)
    simp only [List.cons_append, scanGroups, hg]
    simpa using ih hL

end Gitignore

/-- C1: `ShouldIgnore` scans pattern groups from the most recently pushed to
the least recently pushed; the deepest group in which at least one pattern
matched decides immediately, with the group's last-match result, and the
shallower groups `gs` are never consulted.  Concretely, with group
`["*.txt"]` pushed and then `["!important.txt"]` pushed,
`ShouldIgnore "important.txt"` is false. -/
theorem shouldIgnore_deepest_decision
    (base rel : List Char) (gs ds : List (List (List Char)))
    (g : List (List Char)) (b : Bool)
    (hrel : Gitignore.startsWithDotDot rel = false)
    (hds : ∀ d ∈ ds, (Gitignore.evalGroupLoop rel d false false).1 = false)
    (hg : Gitignore.evalGroupLoop rel g false false = (true, b)) :
    Gitignore.ShouldIgnore ⟨gs ++ g :: ds, base⟩ rel = b ∧
      Gitignore.ShouldIgnore
        (Gitignore.PushPatterns
          (Gitignore.PushPatterns (Gitignore.New [])
            [['*', '.', 't', 'x', 't']])
          [['!', 'i', 'm', 'p', 'o', 'r', 't', 'a', 'n', 't', '.', 't', 'x', 't']])
        ['i', 'm', 'p', 'o', 'r', 't', 'a', 'n', 't', '.', 't', 'x', 't'] = false := by
  constructor
  · rw [Gitignore.ShouldIgnore, if_neg (by simp [hrel])]
    have hrev : (gs ++ g :: ds).reverse = ds.reverse ++ g :: gs.reverse := by
      simp
    rw [hrev]
    rw [Gitignore.scanGroups_append_of_no_match
      (fun x hx => hds x (List.mem_reverse.mp hx))]
    simp [Gitignore.scanGroups, hg]
  · simp +decide [Gitignore.ShouldIgnore, Gitignore.scanGroups, Gitignore.evalGroupLoop,
      Gitignore.startsWithDotDot, Gitignore.endsWithSlash, Gitignore.trimSlash,
      Gitignore.dirRuleMatch, Gitignore.plainRuleMatch, Gitignore.PushPatterns,
      Gitignore.New, Gitignore.toSlash, Wildpath.Match, Wildpath.lbrace,
      Wildpath.expandBraces, Wildpath.indexOfChar, Wildpath.splitOnChar,
      Wildpath.normalize, Wildpath.matchSinglePattern, Wildpath.matchParts,
      Wildpath.matchSinglePart,
      Wildpath.mspLoop, Wildpath.allStars, Wildpath.findClosingBracket,
      Wildpath.findClose, Wildpath.matchCharacterRange, Wildpath.rangeLoop,
      Wildpath.tailsList, Wildpath.globstar, Wildpath.allGlobstars]

/-- Witness for C1: with only the deepest group `["!important.txt"]` on the
stack, the group decides and the query returns its (negated) decision. -/
theorem shouldIgnore_deepest_decision_witness :
    Gitignore.ShouldIgnore
      ⟨[[['!', 'i', 'm', 'p', 'o', 'r', 't', 'a', 'n', 't', '.', 't', 'x', 't']]], []⟩
      ['i', 'm', 'p', 'o', 'r', 't', 'a', 'n', 't', '.', 't', 'x', 't'] = false :=
  (shouldIgnore_deepest_decision [] _ [] []
    [['!', 'i', 'm', 'p', 'o', 'r', 't', 'a', 'n', 't', '.', 't', 'x', 't']] false
    (by decide)
    (by simp)
    (by simp +decide [Gitignore.evalGroupLoop, Gitignore.endsWithSlash, Gitignore.trimSlash,
      Gitignore.dirRuleMatch, Gitignore.plainRuleMatch, Wildpath.Match, Wildpath.lbrace,
      Wildpath.expandBraces, Wildpath.indexOfChar, Wildpath.splitOnChar,
      Wildpath.normalize, Wildpath.matchSinglePattern, Wildpath.matchParts,
      Wildpath.matchSinglePart,
      Wildpath.mspLoop, Wildpath.allStars, Wildpath.findClosingBracket,
      Wildpath.findClose, Wildpath.matchCharacterRange, Wildpath.rangeLoop,
      Wildpath.tailsList, Wildpath.globstar, Wildpath.allGlobstars])).1

/-- C7: popping immediately after a push restores the stack exactly, and a
pop on a stack with no groups is a no-op. -/
theorem pop_push_inverse :
    (∀ (s : Gitignore.Stack) (ps : List (List Char)),
        Gitignore.PopPatterns (Gitignore.PushPatterns s ps) = s) ∧
      (∀ s : Gitignore.Stack, s.patterns = [] → Gitignore.PopPatterns s = s) := by
  constructor
  · intro s ps
    simp [Gitignore.PopPatterns, Gitignore.PushPatterns]
  · intro s h
    simp [Gitignore.PopPatterns, h]

/-- Witness for C7: popping the freshly created empty stack leaves it
unchanged. -/
theorem pop_push_inverse_witness :
    Gitignore.PopPatterns (Gitignore.New []) = Gitignore.New [] :=
  pop_push_inverse.2 (Gitignore.New []) rfl

/-- C8: `Match` is a total Boolean function: on every pattern and path it
terminates with either `true` or `false` (its acceptance as a terminating
definition is checked by the termination arguments of `mspLoop`,
`matchParts` and `expandBraces`). -/
theorem match_total (pattern filename : List Char) :
    Wildpath.Match pattern filename = true ∨ Wildpath.Match pattern filename = false := by
  cases h : Wildpath.Match pattern filename
  · right; rfl
  · left; rfl

/-- C10: a queried path whose base-relative form begins with the two
characters `..` is never ignored, whatever the stack contents; in
particular a file named `..cache` directly under the base is never ignored
even by a pattern (`**/..cache`) that matches it. -/
theorem dotdot_never_ignored
    (s : Gitignore.Stack) (rel : List Char)
    (h : Gitignore.startsWithDotDot rel = true) :
    Gitignore.ShouldIgnore s rel = false ∧
      Gitignore.ShouldIgnore
        (Gitignore.PushPatterns (Gitignore.New [])
          [['.', '.', 'c', 'a', 'c', 'h', 'e']])
        ['.', '.', 'c', 'a', 'c', 'h', 'e'] = false ∧
      Wildpath.Match ['*', '*', '/', '.', '.', 'c', 'a', 'c', 'h', 'e']
        ['.', '.', 'c', 'a', 'c', 'h', 'e'] = true := by
  refine ⟨?_, ?_, ?_⟩
  · rw [Gitignore.ShouldIgnore, if_pos (by simp [h])]
  · rw [Gitignore.ShouldIgnore, if_pos (by decide)]
  · simp +decide [Wildpath.Match, Wildpath.lbrace,
      Wildpath.splitOnChar, Wildpath.normalize, Wildpath.matchSinglePattern,
      Wildpath.matchParts, Wildpath.matchSinglePart, Wildpath.mspLoop,
      Wildpath.allStars, Wildpath.findClosingBracket, Wildpath.findClose,
      Wildpath.tailsList, Wildpath.globstar, Wildpath.allGlobstars]

/-- Witness for C10: the relative form `..cache` begins with `..`, so the
stack that holds the very pattern `..cache` still does not ignore it. -/
theorem dotdot_never_ignored_witness :
    Gitignore.ShouldIgnore
      (Gitignore.PushPatterns (Gitignore.New []) [['.', '.', 'c', 'a', 'c', 'h', 'e']])
      ['.', '.', 'c', 'a', 'c', 'h', 'e'] = false :=
  (dotdot_never_ignored
    (Gitignore.PushPatterns (Gitignore.New []) [['.', '.', 'c', 'a', 'c', 'h', 'e']])
    ['.', '.', 'c', 'a', 'c', 'h', 'e'] (by decide)).1

/-- C3 (with the third-party `doublestar.PathMatch` of `shouldExclude`
modelled from the spec as the Pattern Matcher, see `Walker.pathMatch`): the
walker excludes an entry exactly when the flat exclude list matches its
relative path or the ignore stack ignores it, and a directory named `.git`
or a file named `.gitignore` is excluded unconditionally, whatever the
exclude list, the stack and the gitignore flag. -/
theorem walker_exclusion :
    (∀ (rel : List Char) (ex : List (List Char)) (st : Gitignore.Stack) (b : Bool),
        Walker.excludedFromComparison .dir ['.', 'g', 'i', 't'] rel ex st b = true) ∧
      (∀ (rel : List Char) (ex : List (List Char)) (st : Gitignore.Stack) (b : Bool),
        Walker.excludedFromComparison .file
          ['.', 'g', 'i', 't', 'i', 'g', 'n', 'o', 'r', 'e'] rel ex st b = true) ∧
      (∀ (name rel : List Char) (ex : List (List Char)) (st : Gitignore.Stack),
        name ≠ ['.', 'g', 'i', 't'] →
        Walker.excludedFromComparison .dir name rel ex st true =
          (Walker.shouldExclude rel ex || Gitignore.ShouldIgnore st rel)) ∧
      (∀ (name rel : List Char) (ex : List (List Char)) (st : Gitignore.Stack),
        name ≠ ['.', 'g', 'i', 't', 'i', 'g', 'n', 'o', 'r', 'e'] →
        Walker.excludedFromComparison .file name rel ex st true =
          (Walker.shouldExclude rel ex || Gitignore.ShouldIgnore st rel)) := by
  refine ⟨?_, ?_, ?_, ?_⟩
  · intro rel ex st b
    simp [Walker.excludedFromComparison]
  · intro rel ex st b
    simp [Walker.excludedFromComparison]
  · intro name rel ex st hname
    simp only [Walker.excludedFromComparison, if_neg hname, Bool.true_and]
    cases hse : Walker.shouldExclude rel ex <;>
      cases hsi : Gitignore.ShouldIgnore st rel <;>
        simp [hse, hsi]
  · intro name rel ex st hname
    simp only [Walker.excludedFromComparison, if_neg hname, Bool.true_and]
    cases hse : Walker.shouldExclude rel ex <;>
      cases hsi : Gitignore.ShouldIgnore st rel <;>
        simp [hse, hsi]

/-- Witness for C3: a directory entry named `src` with an empty exclude
list and an empty stack follows the disjunction exactly. -/
theorem walker_exclusion_witness :
    Walker.excludedFromComparison .dir ['s', 'r', 'c'] ['s', 'r', 'c'] []
      (Gitignore.New []) true =
      (Walker.shouldExclude ['s', 'r', 'c'] [] ||
        Gitignore.ShouldIgnore (Gitignore.New []) ['s', 'r', 'c']) :=
  walker_exclusion.2.2.1 ['s', 'r', 'c'] ['s', 'r', 'c'] [] (Gitignore.New [])
    (by decide)

namespace Wildpath

theorem expandBraces_of_rbrace_none {pattern : List Char} {start : Nat}
    (h1 : indexOfChar lbrace pattern = some start)
    (h2 : indexOfChar rbrace (pattern.drop start) = none) :
    expandBraces pattern = [pattern] := by
  rw [expandBraces.eq_def, h1]
  simp only []
  rw [h2]

theorem expandBraces_of_comma {pattern : List Char} {start e : Nat}
    (h1 : indexOfChar lbrace pattern = some start)
    (h2 : indexOfChar rbrace (pattern.drop start) = some e)
    (h3 : ¬ ((pattern.drop (start + 1)).take (e + start - (start + 1)) = [] ∨
      ¬ ((pattern.drop (start + 1)).take (e + start - (start + 1))).contains ',')) :
    expandBraces pattern =
      (splitOnChar ',' ((pattern.drop (start + 1)).take (e + start - (start + 1)))).flatMap
        (fun alt => (expandBraces (pattern.drop (e + start + 1))).map
          (fun sp => pattern.take start ++ alt ++ sp)) := by
  rw [expandBraces.eq_def, h1]
  simp only []
  rw [h2]
  simp only [if_neg h3]

theorem contains_true_indexOfChar_some {c : Char} {s : List Char}
    (h : s.contains c = true) : ∃ i, indexOfChar c s = some i := by
  cases hio : indexOfChar c s with
  | none =>
    rw [indexOfChar_eq_none] at hio
    rw [hio] at h
    cases h
  | some i => exact ⟨i, rfl⟩

end Wildpath

/-- C2 counterexample: `Match("*[", "a[")` is false although the
literal-character interpretation of the unterminated bracket (the
spec-modelled `WildpathLit.MatchLit`) accepts: the code aborts the
component match at a malformed bracket instead of reading it literally. -/
theorem malformed_bracket_cex :
    Wildpath.Match ['*', '['] ['a', '['] = false ∧
      WildpathLit.MatchLit ['*', '['] ['a', '['] = true := by
  constructor
  · simp +decide [Wildpath.Match, Wildpath.lbrace, Wildpath.splitOnChar,
      Wildpath.normalize, Wildpath.matchSinglePattern, Wildpath.matchParts,
      Wildpath.matchSinglePart, Wildpath.mspLoop, Wildpath.allStars,
      Wildpath.findClosingBracket, Wildpath.findClose, Wildpath.tailsList,
      Wildpath.globstar, Wildpath.allGlobstars]
  · simp +decide [WildpathLit.MatchLit, Wildpath.lbrace, Wildpath.splitOnChar,
      Wildpath.normalize, WildpathLit.matchSinglePatternLit, WildpathLit.matchPartsLit,
      WildpathLit.matchSinglePartLit, WildpathLit.mspLoopLit, Wildpath.allStars,
      Wildpath.tailsList, Wildpath.globstar, Wildpath.allGlobstars]

/-- C2 (amended): `Match` is total and never fails; a pattern whose first
open brace has no closing brace is matched with the braces as literal
characters (no expansion); but a malformed bracket expression does not
degrade to a literal character: when the matcher reaches an unterminated
`[` it returns false for that component unless the path character is
literally `[`, so `Match("*[", "a[")` is false while `Match("*[", "[")` is
true. -/
theorem malformed_degrade (pattern filename : List Char)
    (h : ∀ start, Wildpath.indexOfChar Wildpath.lbrace pattern = some start →
      Wildpath.indexOfChar Wildpath.rbrace (pattern.drop start) = none) :
    Wildpath.Match pattern filename = Wildpath.matchSinglePattern pattern filename ∧
      Wildpath.Match ['*', '['] ['a', '['] = false ∧
      Wildpath.Match ['*', '['] ['['] = true ∧
      (∀ p f, Wildpath.Match p f = true ∨ Wildpath.Match p f = false) := by
  refine ⟨?_, ?_, ?_, fun p f => ?_⟩
  · by_cases hc : pattern.contains Wildpath.lbrace
    · obtain ⟨start, hio⟩ := Wildpath.contains_true_indexOfChar_some hc
      rw [Wildpath.Match, if_pos hc,
        Wildpath.expandBraces_of_rbrace_none hio (h start hio)]
      simp
    · rw [Wildpath.Match, if_neg hc]
  · exact malformed_bracket_cex.1
  · simp +decide [Wildpath.Match, Wildpath.lbrace, Wildpath.splitOnChar,
      Wildpath.normalize, Wildpath.matchSinglePattern, Wildpath.matchParts,
      Wildpath.matchSinglePart, Wildpath.mspLoop, Wildpath.allStars,
      Wildpath.findClosingBracket, Wildpath.findClose, Wildpath.tailsList,
      Wildpath.globstar, Wildpath.allGlobstars]
  · cases hv : Wildpath.Match p f
    · right; rfl
    · left; rfl

/-- Witness for C2 (amended) at the unterminated-brace pattern `a\x7bb`:
matching degrades to the literal single-pattern match and accepts the
identical path. -/
theorem malformed_degrade_witness :
    Wildpath.Match ['a', Wildpath.lbrace, 'b'] ['a', Wildpath.lbrace, 'b'] =
      Wildpath.matchSinglePattern ['a', Wildpath.lbrace, 'b'] ['a', Wildpath.lbrace, 'b'] :=
  (malformed_degrade ['a', Wildpath.lbrace, 'b'] ['a', Wildpath.lbrace, 'b']
    (by
      intro start hstart
      simp +decide [Wildpath.indexOfChar, Wildpath.lbrace, Wildpath.rbrace] at hstart ⊢
      subst hstart
      decide)).1

namespace Wildpath

theorem normalize_nil : normalize ([] : List Char) = ([], false) := by
  simp [normalize, splitOnChar]

theorem matchSinglePattern_nil_right (q : List Char) :
    matchSinglePattern q [] = (!(normalize q).2 && allGlobstars (normalize q).1) := by
  rw [matchSinglePattern, normalize_nil]
  cases hq : (normalize q).2
  · simp [hq, matchParts_nil_right]
  · simp [hq]

end Wildpath

/-- C4 counterexample: the non-empty pattern `**` matches the empty path,
contradicting "a non-empty pattern never matches an empty path". -/
theorem nonempty_pattern_empty_path_cex :
    Wildpath.Match ['*', '*'] [] = true ∧ (['*', '*'] : List Char) ≠ [] := by
  constructor
  · simp +decide [Wildpath.Match, Wildpath.lbrace, Wildpath.splitOnChar,
      Wildpath.normalize, Wildpath.matchSinglePattern, Wildpath.matchParts,
      Wildpath.globstar, Wildpath.allGlobstars]
  · simp

/-- C4 (amended): the empty pattern matches exactly the empty path; and a
pattern matches the empty path exactly when one of its brace expansions is
unanchored and consists solely of globstar components (so a non-empty
pattern such as `**` can still match the empty path). -/
theorem empty_pattern_empty_path :
    (∀ path : List Char, Wildpath.Match [] path = true ↔ path = []) ∧
      (∀ pattern : List Char,
        Wildpath.Match pattern [] =
          (Wildpath.expandBraces pattern).any
            (fun q => !(Wildpath.normalize q).2 &&
              Wildpath.allGlobstars (Wildpath.normalize q).1)) := by
  constructor
  · intro path
    cases path with
    | nil =>
      simp +decide [Wildpath.Match, Wildpath.lbrace, Wildpath.splitOnChar,
        Wildpath.normalize, Wildpath.matchSinglePattern, Wildpath.matchParts]
    | cons c cs =>
      simp only [List.cons_ne_nil, iff_false]
      intro hmatch
      rw [Wildpath.Match, if_neg (by simp)] at hmatch
      rw [Wildpath.matchSinglePattern, Wildpath.normalize_nil] at hmatch
      by_cases hc : c = '/'
      · have h2 : (Wildpath.normalize (c :: cs)).2 = true := by
          simp [Wildpath.normalize, hc]
        rw [h2] at hmatch
        simp at hmatch
      · have h2 : (Wildpath.normalize (c :: cs)).2 = false := by
          simp [Wildpath.normalize, List.head?_cons, hc]
        rw [h2] at hmatch
        simp only [ne_eq, not_true_eq_false, if_neg, Bool.not_eq_true, not_false_eq_true,
          if_false] at hmatch
        cases hsp : Wildpath.splitOnChar '/' cs with
        | nil => exact absurd hsp (Wildpath.splitOnChar_ne_nil '/' cs)
        | cons h t =>
          have hparts : (Wildpath.normalize (c :: cs)).1 =
              (c :: h) :: t.filter (fun part => part ≠ []) := by
            simp only [Wildpath.normalize, Wildpath.splitOnChar, hsp, if_neg hc]
            simp
          rw [hparts] at hmatch
          rw [Wildpath.matchParts] at hmatch
          simp at hmatch
  · intro pattern
    by_cases hc : pattern.contains Wildpath.lbrace
    · rw [Wildpath.Match, if_pos hc]
      have hfun : (fun q => Wildpath.matchSinglePattern q []) =
          (fun q => !(Wildpath.normalize q).2 &&
            Wildpath.allGlobstars (Wildpath.normalize q).1) :=
        funext Wildpath.matchSinglePattern_nil_right
      rw [hfun]
    · rw [Wildpath.Match, if_neg hc,
        Wildpath.expandBraces_of_not_contains (by simpa using hc)]
      simp [Wildpath.matchSinglePattern_nil_right]

namespace Wildpath

theorem split_dir_wrapped (stem : List Char) :
    splitOnChar '/' (['*', '*', '/'] ++ stem ++ ['/', '*', '*', '/', '*']) =
      [globstar] ++ splitOnChar '/' stem ++ [globstar, ['*']] := by
  have e1 : (['*', '*', '/'] ++ stem ++ ['/', '*', '*', '/', '*'] : List Char) =
      ['*', '*'] ++ '/' :: (stem ++ '/' :: ['*', '*', '/', '*']) := by simp
  have e2 : (['*', '*', '/', '*'] : List Char) = ['*', '*'] ++ '/' :: ['*'] := rfl
  rw [e1, splitOnChar_append, splitOnChar_append, e2, splitOnChar_append]
  simp [splitOnChar, globstar]

theorem split_dir_plain (stem : List Char) :
    splitOnChar '/' (stem ++ ['/', '*', '*', '/', '*']) =
      splitOnChar '/' stem ++ [globstar, ['*']] := by
  have e1 : (stem ++ ['/', '*', '*', '/', '*'] : List Char) =
      stem ++ '/' :: (['*', '*'] ++ '/' :: ['*']) := rfl
  rw [e1, splitOnChar_append, splitOnChar_append]
  simp [splitOnChar, globstar]

theorem parts_dir_wrapped (stem : List Char) :
    (normalize (['*', '*', '/'] ++ stem ++ ['/', '*', '*', '/', '*'])).1 =
      globstar :: ((normalize stem).1 ++ [globstar, ['*']]) := by
  simp only [normalize, split_dir_wrapped, List.filter_append]
  simp [globstar]

theorem parts_dir_plain (stem : List Char) :
    (normalize (stem ++ ['/', '*', '*', '/', '*'])).1 =
      (normalize stem).1 ++ [globstar, ['*']] := by
  simp only [normalize, split_dir_plain, List.filter_append]
  simp [globstar]

end Wildpath

/-- C5 counterexample: for the directory-only pattern `**/` (stem `**`),
`ShouldIgnore` of the bare base-relative path `**` is true, so a
directory-only rule can ignore the bare path equal to its own stem. -/
theorem dir_only_bare_path_cex :
    Gitignore.ShouldIgnore
      (Gitignore.PushPatterns (Gitignore.New []) [['*', '*', '/']])
      ['*', '*'] = true := by
  simp +decide [Gitignore.ShouldIgnore, Gitignore.scanGroups, Gitignore.evalGroupLoop,
    Gitignore.startsWithDotDot, Gitignore.endsWithSlash, Gitignore.trimSlash,
    Gitignore.dirRuleMatch, Gitignore.plainRuleMatch, Gitignore.PushPatterns,
    Gitignore.New, Gitignore.toSlash, Wildpath.Match, Wildpath.lbrace,
    Wildpath.expandBraces, Wildpath.indexOfChar, Wildpath.splitOnChar,
    Wildpath.normalize, Wildpath.matchSinglePattern, Wildpath.matchParts,
    Wildpath.matchSinglePart,
    Wildpath.mspLoop, Wildpath.allStars, Wildpath.findClosingBracket,
    Wildpath.findClose, Wildpath.matchCharacterRange, Wildpath.rangeLoop,
    Wildpath.tailsList, Wildpath.globstar, Wildpath.allGlobstars]

namespace Wildpath

theorem count_dir_wrapped (X : List (List Char)) (hX : ∀ part ∈ X, part ≠ globstar) :
    nonGlobstarCount (globstar :: (X ++ [globstar, ['*']])) = X.length + 1 := by
  simp +decide [nonGlobstarCount, nonGlobstarCount_append, nonGlobstarCount_eq_length hX,
    globstar]

theorem count_dir_plain (X : List (List Char)) (hX : ∀ part ∈ X, part ≠ globstar) :
    nonGlobstarCount (X ++ [globstar, ['*']]) = X.length + 1 := by
  simp +decide [nonGlobstarCount, nonGlobstarCount_append, nonGlobstarCount_eq_length hX,
    globstar]

end Wildpath

/-- C5 (amended by the `**/` counterexample): a directory-only rule whose
stem contains no brace and no globstar component never matches the bare
base-relative path equal to the stem itself; and for the stack holding only
`temp/`, `ShouldIgnore "temp"` is false while `ShouldIgnore "temp/file.txt"`
is true. -/
theorem dir_only_bare_path
    (stem : List Char)
    (hbrace : stem.contains Wildpath.lbrace = false)
    (hstem : ∀ part ∈ (Wildpath.normalize stem).1, part ≠ Wildpath.globstar) :
    Gitignore.dirRuleMatch stem stem = false ∧
      Gitignore.ShouldIgnore
        (Gitignore.PushPatterns (Gitignore.New []) [['t', 'e', 'm', 'p', '/']])
        ['t', 'e', 'm', 'p'] = false ∧
      Gitignore.ShouldIgnore
        (Gitignore.PushPatterns (Gitignore.New []) [['t', 'e', 'm', 'p', '/']])
        ['t', 'e', 'm', 'p', '/', 'f', 'i', 'l', 'e', '.', 't', 'x', 't'] = true := by
  have hw : Wildpath.Match (['*', '*', '/'] ++ stem ++ ['/', '*', '*', '/', '*']) stem
      = false := by
    have hcont : (['*', '*', '/'] ++ stem ++ ['/', '*', '*', '/', '*']).contains
        Wildpath.lbrace = false := by
      rw [Wildpath.contains_append, Wildpath.contains_append, hbrace]
      decide
    rw [Wildpath.Match, if_neg (by rw [hcont]; simp)]
    rw [Wildpath.matchSinglePattern]
    have hroot : (Wildpath.normalize
        (['*', '*', '/'] ++ stem ++ ['/', '*', '*', '/', '*'])).2 = false := by
      simp [Wildpath.normalize]
    rw [hroot, Wildpath.parts_dir_wrapped]
    cases hr : (Wildpath.normalize stem).2
    · rw [if_neg (by simp [hr])]
      cases hmp : Wildpath.matchParts
          (Wildpath.globstar :: ((Wildpath.normalize stem).1 ++ [Wildpath.globstar, ['*']]))
          (Wildpath.normalize stem).1
      · rfl
      · exfalso
        have hle := Wildpath.matchParts_length_le _ _ hmp
        rw [Wildpath.count_dir_wrapped _ hstem] at hle
        omega
    · rw [if_pos (by simp [hr])]
  have hp : Wildpath.Match (stem ++ ['/', '*', '*', '/', '*']) stem = false := by
    have hcont : (stem ++ ['/', '*', '*', '/', '*']).contains Wildpath.lbrace = false := by
      rw [Wildpath.contains_append, hbrace]
      decide
    rw [Wildpath.Match, if_neg (by rw [hcont]; simp)]
    rw [Wildpath.matchSinglePattern, Wildpath.parts_dir_plain]
    cases stem with
    | nil => decide
    | cons c cs =>
      rw [if_neg (by simp [Wildpath.normalize])]
      cases hmp : Wildpath.matchParts
          ((Wildpath.normalize (c :: cs)).1 ++ [Wildpath.globstar, ['*']])
          (Wildpath.normalize (c :: cs)).1
      · rfl
      · exfalso
        have hle := Wildpath.matchParts_length_le _ _ hmp
        rw [Wildpath.count_dir_plain _ hstem] at hle
        omega
  refine ⟨?_, ?_, ?_⟩
  · rw [Gitignore.dirRuleMatch, hw, hp]
    rfl
  · simp +decide [Gitignore.ShouldIgnore, Gitignore.scanGroups, Gitignore.evalGroupLoop,
      Gitignore.startsWithDotDot, Gitignore.endsWithSlash, Gitignore.trimSlash,
      Gitignore.dirRuleMatch, Gitignore.plainRuleMatch, Gitignore.PushPatterns,
      Gitignore.New, Gitignore.toSlash, Wildpath.Match, Wildpath.lbrace,
      Wildpath.splitOnChar, Wildpath.normalize, Wildpath.matchSinglePattern,
      Wildpath.matchParts, Wildpath.matchSinglePart, Wildpath.mspLoop, Wildpath.allStars,
      Wildpath.findClosingBracket, Wildpath.findClose, Wildpath.tailsList,
      Wildpath.globstar, Wildpath.allGlobstars]
  · simp +decide [Gitignore.ShouldIgnore, Gitignore.scanGroups, Gitignore.evalGroupLoop,
      Gitignore.startsWithDotDot, Gitignore.endsWithSlash, Gitignore.trimSlash,
      Gitignore.dirRuleMatch, Gitignore.plainRuleMatch, Gitignore.PushPatterns,
      Gitignore.New, Gitignore.toSlash, Wildpath.Match, Wildpath.lbrace,
      Wildpath.splitOnChar, Wildpath.normalize, Wildpath.matchSinglePattern,
      Wildpath.matchParts, Wildpath.matchSinglePart, Wildpath.mspLoop, Wildpath.allStars,
      Wildpath.findClosingBracket, Wildpath.findClose, Wildpath.tailsList,
      Wildpath.globstar, Wildpath.allGlobstars]

/-- Witness for C5 at stem `temp`: the directory rule does not match the
bare path `temp`. -/
theorem dir_only_bare_path_witness :
    Gitignore.dirRuleMatch ['t', 'e', 'm', 'p'] ['t', 'e', 'm', 'p'] = false :=
  (dir_only_bare_path ['t', 'e', 'm', 'p'] (by decide) (by decide)).1

/-- C6 counterexample: for the pattern `\x7ba\x7bb,c\x7d,d\x7de` (whose
first brace span has the comma-containing content `a\x7bb,c`), the claim's
right-hand side holds — the expansion `a\x7bb,d\x7de` = prefix +
alternative + expandedSuffix, *re-expanded by `Match`*, accepts the path
`abe` — yet `Match` of the original pattern on `abe` is false, because the
code matches expansions with `matchSinglePattern` and never re-expands
them. -/
theorem brace_cross_product_cex :
    Wildpath.Match
      [Wildpath.lbrace, 'a', Wildpath.lbrace, 'b', ',', 'c', Wildpath.rbrace, ',', 'd',
        Wildpath.rbrace, 'e'] ['a', 'b', 'e'] = false ∧
      Wildpath.Match ['a', Wildpath.lbrace, 'b', ',', 'd', Wildpath.rbrace, 'e']
        ['a', 'b', 'e'] = true := by
  constructor
  · simp +decide [Wildpath.Match, Wildpath.lbrace, Wildpath.rbrace, Wildpath.expandBraces,
      Wildpath.indexOfChar, Wildpath.splitOnChar, Wildpath.normalize,
      Wildpath.matchSinglePattern, Wildpath.matchParts, Wildpath.matchSinglePart,
      Wildpath.mspLoop, Wildpath.allStars, Wildpath.findClosingBracket,
      Wildpath.findClose, Wildpath.tailsList, Wildpath.globstar, Wildpath.allGlobstars]
  · simp +decide [Wildpath.Match, Wildpath.lbrace, Wildpath.rbrace, Wildpath.expandBraces,
      Wildpath.indexOfChar, Wildpath.splitOnChar, Wildpath.normalize,
      Wildpath.matchSinglePattern, Wildpath.matchParts, Wildpath.matchSinglePart,
      Wildpath.mspLoop, Wildpath.allStars, Wildpath.findClosingBracket,
      Wildpath.findClose, Wildpath.tailsList, Wildpath.globstar, Wildpath.allGlobstars]

/-- C6 (amended): when the first brace span of the pattern has
comma-containing content, `Match` succeeds exactly when some alternative,
combined with some recursive expansion of the suffix, matches the path as a
*single* pattern (`matchSinglePattern` — the produced expansion is not
re-expanded); the literal cases behave as claimed:
`Match("*.\x7bjs,ts\x7d", "module.js")` is true, empty and comma-free
brace spans stay literal. -/
theorem brace_cross_product
    (pattern path : List Char) (start e : Nat)
    (h1 : Wildpath.indexOfChar Wildpath.lbrace pattern = some start)
    (h2 : Wildpath.indexOfChar Wildpath.rbrace (pattern.drop start) = some e)
    (h3 : ¬ ((pattern.drop (start + 1)).take (e + start - (start + 1)) = [] ∨
      ¬ ((pattern.drop (start + 1)).take (e + start - (start + 1))).contains ',')) :
    (Wildpath.Match pattern path = true ↔
      ∃ alt ∈ Wildpath.splitOnChar ','
          ((pattern.drop (start + 1)).take (e + start - (start + 1))),
        ∃ sp ∈ Wildpath.expandBraces (pattern.drop (e + start + 1)),
          Wildpath.matchSinglePattern (pattern.take start ++ alt ++ sp) path = true) ∧
      Wildpath.Match ['*', '.', Wildpath.lbrace, 'j', 's', ',', 't', 's', Wildpath.rbrace]
        ['m', 'o', 'd', 'u', 'l', 'e', '.', 'j', 's'] = true ∧
      Wildpath.Match ['f', 'i', 'l', 'e', '.', Wildpath.lbrace, Wildpath.rbrace]
        ['f', 'i', 'l', 'e', '.', Wildpath.lbrace, Wildpath.rbrace] = true ∧
      Wildpath.Match ['f', 'i', 'l', 'e', '.', Wildpath.lbrace, 'j', 's', Wildpath.rbrace]
        ['f', 'i', 'l', 'e', '.', Wildpath.lbrace, 'j', 's', Wildpath.rbrace] = true ∧
      Wildpath.Match ['f', 'i', 'l', 'e', '.', Wildpath.lbrace, 'j', 's', Wildpath.rbrace]
        ['f', 'i', 'l', 'e', '.', 'j', 's'] = false := by
  refine ⟨?_, ?_, ?_, ?_, ?_⟩
  · have hcont : pattern.contains Wildpath.lbrace = true := by
      cases hcc : pattern.contains Wildpath.lbrace
      · rw [Wildpath.indexOfChar_eq_none.mpr hcc] at h1
        cases h1
      · rfl
    rw [Wildpath.Match, if_pos hcont, Wildpath.expandBraces_of_comma h1 h2 h3]
    rw [List.any_eq_true]
    constructor
    · rintro ⟨q, hqmem, hq⟩
      rw [List.mem_flatMap] at hqmem
      obtain ⟨alt, halt, hqmap⟩ := hqmem
      rw [List.mem_map] at hqmap
      obtain ⟨sp, hsp, rfl⟩ := hqmap
      exact ⟨alt, halt, sp, hsp, hq⟩
    · rintro ⟨alt, halt, sp, hsp, hq⟩
      refine ⟨pattern.take start ++ alt ++ sp, ?_, hq⟩
      rw [List.mem_flatMap]
      exact ⟨alt, halt, List.mem_map.mpr ⟨sp, hsp, rfl⟩⟩
  · simp +decide [Wildpath.Match, Wildpath.lbrace, Wildpath.rbrace, Wildpath.expandBraces,
      Wildpath.indexOfChar, Wildpath.splitOnChar, Wildpath.normalize,
      Wildpath.matchSinglePattern, Wildpath.matchParts, Wildpath.matchSinglePart,
      Wildpath.mspLoop, Wildpath.allStars, Wildpath.findClosingBracket,
      Wildpath.findClose, Wildpath.tailsList, Wildpath.globstar, Wildpath.allGlobstars]
  · simp +decide [Wildpath.Match, Wildpath.lbrace, Wildpath.rbrace, Wildpath.expandBraces,
      Wildpath.indexOfChar, Wildpath.splitOnChar, Wildpath.normalize,
      Wildpath.matchSinglePattern, Wildpath.matchParts, Wildpath.matchSinglePart,
      Wildpath.mspLoop, Wildpath.allStars, Wildpath.findClosingBracket,
      Wildpath.findClose, Wildpath.tailsList, Wildpath.globstar, Wildpath.allGlobstars]
  · simp +decide [Wildpath.Match, Wildpath.lbrace, Wildpath.rbrace, Wildpath.expandBraces,
      Wildpath.indexOfChar, Wildpath.splitOnChar, Wildpath.normalize,
      Wildpath.matchSinglePattern, Wildpath.matchParts, Wildpath.matchSinglePart,
      Wildpath.mspLoop, Wildpath.allStars, Wildpath.findClosingBracket,
      Wildpath.findClose, Wildpath.tailsList, Wildpath.globstar, Wildpath.allGlobstars]
  · simp +decide [Wildpath.Match, Wildpath.lbrace, Wildpath.rbrace, Wildpath.expandBraces,
      Wildpath.indexOfChar, Wildpath.splitOnChar, Wildpath.normalize,
      Wildpath.matchSinglePattern, Wildpath.matchParts, Wildpath.matchSinglePart,
      Wildpath.mspLoop, Wildpath.allStars, Wildpath.findClosingBracket,
      Wildpath.findClose, Wildpath.tailsList, Wildpath.globstar, Wildpath.allGlobstars]

/-- Witness for C6 at `*.\x7bjs,ts\x7d` versus `module.js` (first brace at
index 2, closing brace at offset 6). -/
theorem brace_cross_product_witness :
    Wildpath.Match ['*', '.', Wildpath.lbrace, 'j', 's', ',', 't', 's', Wildpath.rbrace]
        ['m', 'o', 'd', 'u', 'l', 'e', '.', 'j', 's'] = true ↔
      ∃ alt ∈ Wildpath.splitOnChar ','
          ((['*', '.', Wildpath.lbrace, 'j', 's', ',', 't', 's',
            Wildpath.rbrace].drop (2 + 1)).take (6 + 2 - (2 + 1))),
        ∃ sp ∈ Wildpath.expandBraces
            (['*', '.', Wildpath.lbrace, 'j', 's', ',', 't', 's',
              Wildpath.rbrace].drop (6 + 2 + 1)),
          Wildpath.matchSinglePattern
            ((['*', '.', Wildpath.lbrace, 'j', 's', ',', 't', 's',
              Wildpath.rbrace].take 2) ++ alt ++ sp)
            ['m', 'o', 'd', 'u', 'l', 'e', '.', 'j', 's'] = true :=
  (brace_cross_product ['*', '.', Wildpath.lbrace, 'j', 's', ',', 't', 's', Wildpath.rbrace]
    ['m', 'o', 'd', 'u', 'l', 'e', '.', 'j', 's'] 2 6
    (by decide) (by decide) (by decide)).1

/-- C9 counterexample: a leading anchor slash is not always inert for
slash-free patterns.  With a negated slash-free pattern (`!a`), an empty
pattern, or a pattern holding a backslash (`\a`), pushing `"/" ++ p` and
pushing `p` give different `ShouldIgnore` answers. -/
theorem anchored_slash_free_cex :
    (Gitignore.ShouldIgnore
        (Gitignore.PushPatterns (Gitignore.New []) [['/', '!', 'a']]) ['!', 'a'] = true ∧
      Gitignore.ShouldIgnore
        (Gitignore.PushPatterns (Gitignore.New []) [['!', 'a']]) ['!', 'a'] = false) ∧
      (Gitignore.ShouldIgnore
        (Gitignore.PushPatterns (Gitignore.New []) [['/']]) ['x'] = true ∧
      Gitignore.ShouldIgnore
        (Gitignore.PushPatterns (Gitignore.New []) [[]]) ['x'] = false) ∧
      (Gitignore.ShouldIgnore
        (Gitignore.PushPatterns (Gitignore.New []) [['/', '\\', 'a']]) ['a'] = false ∧
      Gitignore.ShouldIgnore
        (Gitignore.PushPatterns (Gitignore.New []) [['\\', 'a']]) ['a'] = true) := by
  refine ⟨⟨?_, ?_⟩, ⟨?_, ?_⟩, ⟨?_, ?_⟩⟩ <;>
    simp +decide [Gitignore.ShouldIgnore, Gitignore.scanGroups, Gitignore.evalGroupLoop,
      Gitignore.startsWithDotDot, Gitignore.endsWithSlash, Gitignore.trimSlash,
      Gitignore.dirRuleMatch, Gitignore.plainRuleMatch, Gitignore.PushPatterns,
      Gitignore.New, Gitignore.toSlash, Wildpath.Match, Wildpath.lbrace,
      Wildpath.splitOnChar, Wildpath.normalize, Wildpath.matchSinglePattern,
      Wildpath.matchParts, Wildpath.matchSinglePart, Wildpath.mspLoop, Wildpath.allStars,
      Wildpath.findClosingBracket, Wildpath.findClose, Wildpath.tailsList,
      Wildpath.globstar, Wildpath.allGlobstars]

/-- C9 (amended): for a nonempty, slash-free, backslash-free pattern `p`
that does not begin with `!`, pushing the group `["/" ++ p]` and pushing
`[p]` yield the same `ShouldIgnore` on every queried path: the anchor slash
is stripped before matching and the slash-free stem is then tried with the
`**/` prefix either way. -/
theorem anchored_slash_free_equiv
    (p rel : List Char) (s : Gitignore.Stack)
    (h1 : p ≠ [])
    (h2 : p.contains '/' = false)
    (h3 : p.contains '\\' = false)
    (h4 : p.head? ≠ some '!') :
    Gitignore.ShouldIgnore (Gitignore.PushPatterns s [('/' :: p)]) rel =
      Gitignore.ShouldIgnore (Gitignore.PushPatterns s [p]) rel := by
  have htos : Gitignore.toSlash p = p := Gitignore.toSlash_eq_self h3
  have hslash : '/' ∉ p := Wildpath.contains_false_not_mem h2
  have hh2 : p.head? ≠ some '/' := fun hh => hslash (Wildpath.mem_of_head?_eq hh)
  have hends : Gitignore.endsWithSlash p = false := by
    rw [Gitignore.endsWithSlash]
    cases hgl : p.getLast? with
    | none => simp
    | some c =>
      by_cases hcc : c = '/'
      · subst hcc
        exact absurd (Wildpath.mem_of_getLast?_eq hgl) hslash
      · simp [hcc]
  have ht1 : Gitignore.toSlash ('/' :: p) = '/' :: p := by
    simp only [Gitignore.toSlash, List.map_cons, if_neg (by decide : ¬('/' : Char) = '\\')]
    have := htos
    simp only [Gitignore.toSlash] at this
    rw [this]
  have hgroup : Gitignore.evalGroupLoop rel [('/' :: p)] false false =
      Gitignore.evalGroupLoop rel [p] false false := by
    simp only [Gitignore.evalGroupLoop, List.head?_cons, List.tail_cons]
    simp +decide [h1, h4, hh2, hends]
  have hpush1 : (Gitignore.PushPatterns s [('/' :: p)]).patterns =
      s.patterns ++ [[('/' :: p)]] := by
    simp [Gitignore.PushPatterns, ht1]
  have hpush2 : (Gitignore.PushPatterns s [p]).patterns = s.patterns ++ [[p]] := by
    simp [Gitignore.PushPatterns, htos]
  rw [Gitignore.ShouldIgnore, Gitignore.ShouldIgnore, hpush1, hpush2]
  cases hdd : Gitignore.startsWithDotDot rel
  · simp only [Bool.false_eq_true, if_false, List.reverse_append, List.reverse_cons,
      List.reverse_nil, List.nil_append, List.cons_append, Gitignore.scanGroups]
    rw [hgroup]
  · simp

/-- Witness for C9 at `p = "a"`: the anchored pattern `/a` and the bare
pattern `a` agree on the query `b/a`. -/
theorem anchored_slash_free_equiv_witness :
    Gitignore.ShouldIgnore
      (Gitignore.PushPatterns (Gitignore.New []) [['/', 'a']]) ['b', '/', 'a'] =
      Gitignore.ShouldIgnore
        (Gitignore.PushPatterns (Gitignore.New []) [['a']]) ['b', '/', 'a'] :=
  anchored_slash_free_equiv ['a'] ['b', '/', 'a'] (Gitignore.New [])
    (by decide) (by decide) (by decide) (by decide)
